import Mathlib

/-!
# Sliding-buffer payload generator (`internal/datagen/generator.go`)

A shallow embedding of the Go type `Generator` with its constructor
`NewGenerator` and its methods `nextSlice` and `GenPayload`, followed by the
properties proved about them.

Modelling conventions.

* Go `int` is taken 64 bits wide.  The sum `g.size+TailSize`, which the code
  forms before any buffer exists, is computed with wrap-around (`wrapInt`).
  The sums `g.offset+1` and `g.offset+g.size` are only formed next to a buffer
  with `g.offset + g.size <= len(g.buf) + 1`; the length of a Go slice stays
  far below the largest `int`, so these sums are computed exactly.  Lengths of
  byte sequences are not bounded, that is, running out of memory is not
  modelled.
* A byte slice is `Option (List Byte)`: `none` is the nil slice, which is what
  `g.buf == nil` tests; `some b` is a non-nil slice with contents `b`.
  Capacity is taken equal to length, so the bounds check of a slice expression
  is at least as strict as the one Go performs.
* The two sources of fresh content, the process-wide `math/rand` stream and the
  `loremipsum` generator created inside a build, are inputs of a call: a `Src`
  gives the bytes `rand.Read` would deliver and the paragraphs successive
  `li.Paragraph()` calls would return during that call.
* A run-time panic is the `none` (or `Except.error`) result.
* Of the host handle `vu` only the value of `vu.InitEnv()` is kept, which
  the host returns as nil outside its init context; the constructor
  dereferences it to reach the logger.  The call of `Logger.Info` is returned
  as a list of log records.  The generator state leaves the handle out, since
  `nextSlice` does not use it.
-/

set_option autoImplicit false

namespace Datagen

/-! ## Data model -/

/-- One byte. -/
abbrev Byte := Fin 256

/-- A Go `[]byte` value: `none` is nil, `some b` a non-nil slice holding `b`. -/
abbrev Slice := Option (List Byte)

/-- Go's builtin `len` on a byte slice; the nil slice has length 0. -/
def len : Slice → Int
  | none => 0
  | some b => (b.length : Int)

/-- The struct `Generator` without its host handle `vu`. -/
structure Generator where
  size : Int
  buf : Slice
  typ : String
  offset : Int
deriving DecidableEq

/-- The struct `GenPayloadResponse`; the array buffer is represented by the
bytes it wraps. -/
structure GenPayloadResponse where
  Payload : List Byte
  Hash : String
deriving DecidableEq

/-- TailSize specifies number of extra random bytes in the buffer tail. -/
def TailSize : Int := 1024

/-- The largest value of a Go `int` (64 bits): `2^63 - 1`. -/
def MaxInt : Int := 9223372036854775807

/-- The value of an `int` expression whose exact value is `x`: two's-complement
wrap-around into `-2^63 .. 2^63 - 1`. -/
def wrapInt (x : Int) : Int :=
  (x + 9223372036854775808) % 18446744073709551616 - 9223372036854775808

/-- The recognised payload types. -/
def payloadTypes : List String := ["text", "random", ""]

/-- What the outside world supplies during one call of `nextSlice`:
`rand i` is the `i`-th byte written by `rand.Read`, and `para k` is the UTF-8
encoding of the string returned by the `k`-th call of `li.Paragraph()` on the
`loremipsum` generator created in that call. -/
structure Src where
  rand : Nat → Byte
  para : Nat → List Byte

/-! ## Constructor -/

/-- The argument list of one `Logger.Info` call. -/
abbrev LogRecord := List String

/-- The part of the host handle `modules.VU` the constructor touches:
`InitEnv` is the value of `vu.InitEnv()`, `none` for the nil pointer the host
returns outside the init context, `some ()` for an init environment (whose
logger is then present). -/
structure VU where
  InitEnv : Option Unit

/-- The loop `for i := range payloadTypes` of `NewGenerator`, computing `found`. -/
def findType (typ : String) : Bool :=
  payloadTypes.foldl (fun found p => if p = typ then true else found) false

/-- `NewGenerator(vu, size, typ)`: panics when `size <= 0`, and panics in
`vu.InitEnv().Logger.Info(...)` when the type is not found and `vu.InitEnv()`
is nil; otherwise returns the generator together with the log records emitted
on the way. -/
def NewGenerator (vu : VU) (size : Int) (typ : String) :
    Except String (Generator × List LogRecord) :=
  if size ≤ 0 then
    Except.error "size should be positive"
  else if !findType typ then
    match vu.InitEnv with
    | none => Except.error "invalid memory address or nil pointer dereference"
    | some _ =>
      Except.ok ({ size := size, buf := none, typ := typ, offset := 0 },
        [["Unknown payload type '%s', random will be used.", typ]])
  else
    Except.ok ({ size := size, buf := none, typ := typ, offset := 0 }, [])

/-! ## `nextSlice` -/

/-- The loop of the `"text"` branch:
`for b.Len() < g.size+TailSize { b.WriteString(li.Paragraph()); b.WriteRune('\n') }`.
`b` is the content of the `bytes.Buffer`, `k` the number of paragraphs drawn so far. -/
def textLoop (para : Nat → List Byte) (target : Int) (k : Nat) (b : List Byte) : List Byte :=
  if (b.length : Int) < target then
    textLoop para target (k + 1) (b ++ para k ++ [10])
  else
    b
termination_by (target - (b.length : Int)).toNat
decreasing_by
  simp only [List.length_append, List.length_singleton]
  omega

/-- The same loop with its body allowed to run at most `fuel` times, and with
the executions of the body counted in `k`: `some (b, k)` when the loop
condition fails on the content `b` after `k` paragraphs were appended, `none`
when the body would have to run once more than `fuel` allows. -/
def textLoopFuel (para : Nat → List Byte) (target : Int) :
    Nat → Nat → List Byte → Option (List Byte × Nat)
  | 0, k, b => if (b.length : Int) < target then none else some (b, k)
  | fuel + 1, k, b =>
    if (b.length : Int) < target then
      textLoopFuel para target fuel (k + 1) (b ++ para k ++ [10])
    else
      some (b, k)

/-- The method `Bytes()` of a `bytes.Buffer` created by `bytes.NewBuffer(nil)`:
nil as long as nothing was written, the written content afterwards. -/
def Bytes (b : List Byte) : Slice :=
  if b.isEmpty then none else some b

/-- `make([]byte, n)`: a run-time panic for negative `n`, else `n` zero bytes. -/
def make (n : Int) : Option (List Byte) :=
  if n < 0 then none else some (List.replicate n.toNat 0)

/-- `rand.Read(p)`: every byte of `p` is overwritten from the random stream. -/
def randRead (rand : Nat → Byte) (p : List Byte) : List Byte :=
  (List.range p.length).map rand

/-- Lines 81-96 of `nextSlice`: (re)build the buffer when it is nil.  The
target length `g.size+TailSize` is an `int` sum and wraps around. -/
def fill (src : Src) (g : Generator) : Option Generator :=
  match g.buf with
  | some _ => some g
  | none =>
    if g.typ = "text" then
      some { g with buf := Bytes (textLoop src.para (wrapInt (g.size + TailSize)) 0 []) }
    else
      match make (wrapInt (g.size + TailSize)) with
      | none => none
      | some p => some { g with buf := some (randRead src.rand p) }

/-- The slice expression `s[lo:hi]`: a run-time panic unless
`0 <= lo <= hi <= len(s)`, else the bytes at positions `lo .. hi-1`. -/
def sliceExpr (s : Slice) (lo hi : Int) : Option (List Byte) :=
  if 0 ≤ lo ∧ lo ≤ hi ∧ hi ≤ len s then
    some (((s.getD []).drop lo.toNat).take (hi - lo).toNat)
  else
    none

/-- Lines 100-106 of `nextSlice`: shift the offset, and erase the buffer when
the tail is used up. -/
def advance (g : Generator) : Generator :=
  let g1 := { g with offset := g.offset + 1 }
  if g1.offset + g1.size > len g1.buf then
    { g1 with buf := none, offset := 0 }
  else
    g1

/-- The method `nextSlice`: the returned slice and the generator afterwards,
or `none` when the call panics. -/
def nextSlice (src : Src) (g : Generator) : Option (List Byte × Generator) :=
  match fill src g with
  | none => none
  | some g1 =>
    match sliceExpr g1.buf g1.offset (g1.offset + g1.size) with
    | none => none
    | some result => some (result, advance g1)

/-! ## `GenPayload` -/

/-- Modelled from the spec: the digit table of `encoding/hex` (Go's standard
library, not part of the repository), the sixteen lowercase hexadecimal digits. -/
def hextable : List Char :=
  "0123456789abcdef".toList

/-- Modelled from the spec: the characters `hex.Encode` (Go's standard
library) writes for a byte sequence, for each byte `v` the digits
`hextable[v>>4]` and `hextable[v&0x0f]`; `v>>4` is `v / 16` and `v&0x0f` is
`v % 16` on a byte. -/
def hexEncode : List Byte → List Char
  | [] => []
  | v :: rest => hextable.getD (v.val / 16) '0' :: hextable.getD (v.val % 16) '0' :: hexEncode rest

/-- Modelled from the spec: `hex.EncodeToString` of Go's standard library,
which is not part of the repository; the spec has the digest encoded "as a
lowercase hexadecimal string", two digits per byte, high nibble first. -/
def EncodeToString (src : List Byte) : String :=
  String.mk (hexEncode src)

/-- The method `GenPayload`.  The parameter `Sum256` stands for
`sha256.Sum256` of Go's standard library. -/
def GenPayload (Sum256 : List Byte → List Byte) (src : Src) (calcHash : Bool) (g : Generator) :
    Option (GenPayloadResponse × Generator) :=
  match nextSlice src g with
  | none => none
  | some (data, g1) =>
    let dataHash := if calcHash then EncodeToString (Sum256 data) else ""
    some ({ Payload := data, Hash := dataHash }, g1)

/-! ## Runs -/

/-- The generator after `n` successive `nextSlice` calls, the `i`-th of which
(`i = 1, 2, ...`) is served by `srcs i`. -/
def stateAfter (srcs : Nat → Src) : Nat → Generator → Option Generator
  | 0, g => some g
  | n + 1, g =>
    match stateAfter srcs n g with
    | none => none
    | some g1 => (nextSlice (srcs (n + 1)) g1).map Prod.snd

/-- The states a generator built by `NewGenerator(size, typ)` can be in:
the constructed one, for any host handle and any `size` that is an `int`, and
every successor under `nextSlice`. -/
inductive Reachable (size : Int) (typ : String) : Generator → Prop
  | init (vu : VU) (g : Generator) (log : List LogRecord) :
      size ≤ MaxInt → NewGenerator vu size typ = Except.ok (g, log) → Reachable size typ g
  | step (src : Src) (g g1 : Generator) (result : List Byte) :
      Reachable size typ g → nextSlice src g = some (result, g1) → Reachable size typ g1

/-- The state invariant used throughout: the size is a positive `int`; an
erased buffer goes with offset 0; a buffer is only in use when
`size + TailSize` does not wrap, and is then long enough for the slice at the
current offset, at least `size + TailSize` long, and exactly that long unless
it was built from text. -/
def Inv (g : Generator) : Prop :=
  0 < g.size ∧ g.size ≤ MaxInt ∧
  match g.buf with
  | none => g.offset = 0
  | some b =>
    g.size + TailSize ≤ MaxInt ∧
    0 ≤ g.offset ∧ g.offset + g.size ≤ (b.length : Int) ∧
    g.size + TailSize ≤ (b.length : Int) ∧
    (g.typ ≠ "text" → (b.length : Int) = g.size + TailSize)

/-! ## Example inputs -/

/-- A host handle inside the init context. -/
def vuInit : VU :=
  { InitEnv := some () }

/-- A host handle outside the init context: `vu.InitEnv()` is nil. -/
def vuNoInit : VU :=
  { InitEnv := none }

/-- A source whose random stream counts 0, 1, 2, ... modulo 256 and whose
paragraphs are empty. -/
def srcCount : Src :=
  { rand := fun i => Fin.ofNat i, para := fun _ => [] }

/-- A source whose paragraphs are all 600 bytes long (600 times the letter `a`). -/
def src600 : Src :=
  { rand := fun _ => 0, para := fun _ => List.replicate 600 97 }

/-- The text buffer built from `src600` for size 1: two paragraphs, each
followed by a newline, 1202 bytes in all. -/
def textBuf600 : List Byte :=
  [] ++ List.replicate 600 97 ++ [10] ++ List.replicate 600 97 ++ [10]

/-! ## Basic facts about the building blocks -/

theorem textLoop_unfold (para : Nat → List Byte) (target : Int) (k : Nat) (b : List Byte) :
    textLoop para target k b =
      if (b.length : Int) < target then textLoop para target (k + 1) (b ++ para k ++ [10]) else b := by
  rw [textLoop]

/-- The text loop only stops once the target length is reached. -/
theorem textLoop_length_ge (para : Nat → List Byte) (target : Int) (k : Nat) (b : List Byte) :
    target ≤ ((textLoop para target k b).length : Int) := by
  induction k, b using textLoop.induct para target with
  | case1 k b h ih =>
    rw [textLoop_unfold, if_pos h]
    exact ih
  | case2 k b h =>
    rw [textLoop_unfold, if_neg h]
    omega

theorem textLoop_ne_nil (para : Nat → List Byte) (target : Int) (k : Nat) (b : List Byte)
    (h : 0 < target) : textLoop para target k b ≠ [] := by
  intro hnil
  have := textLoop_length_ge para target k b
  rw [hnil] at this
  simp at this
  omega

theorem randRead_length (rand : Nat → Byte) (p : List Byte) :
    (randRead rand p).length = p.length := by
  simp [randRead]

/-- With the target already reached the text loop leaves the content alone. -/
theorem textLoop_of_le (para : Nat → List Byte) (target : Int) (k : Nat) (b : List Byte)
    (h : target ≤ (b.length : Int)) : textLoop para target k b = b := by
  rw [textLoop_unfold, if_neg (by omega)]

/-- An `int` sum whose exact value is an `int` does not wrap. -/
theorem wrapInt_eq (x : Int) (h0 : -9223372036854775808 ≤ x) (h1 : x ≤ MaxInt) :
    wrapInt x = x := by
  have hM : MaxInt = 9223372036854775807 := rfl
  unfold wrapInt
  omega

/-- An `int` sum whose exact value exceeds `MaxInt` by at most `2^63` wraps to
a negative value. -/
theorem wrapInt_neg (x : Int) (h0 : MaxInt < x) (h1 : x ≤ MaxInt + 9223372036854775808) :
    wrapInt x < 0 := by
  have hM : MaxInt = 9223372036854775807 := rfl
  unfold wrapInt
  omega

/-- Wrapping a sum that is not below the smallest `int` never increases it. -/
theorem wrapInt_le (x : Int) (h0 : -9223372036854775808 ≤ x) : wrapInt x ≤ x := by
  unfold wrapInt
  omega

/-- The text loop needs no more executions of its body than there are bytes
missing: with that much fuel the bounded loop ends with the content the loop
computes, after `n - k` executions; and when the body runs at all, the final
content exceeds the target by at most the length of the paragraph appended
last, `para (n - 1)`. -/
theorem textLoopFuel_spec (para : Nat → List Byte) (target : Int) :
    ∀ (fuel k : Nat) (b : List Byte), (target - (b.length : Int)).toNat ≤ fuel →
      ∃ n : Nat, textLoopFuel para target fuel k b = some (textLoop para target k b, n) ∧
        k ≤ n ∧ n - k ≤ (target - (b.length : Int)).toNat ∧
        ((b.length : Int) < target →
          k < n ∧ ((textLoop para target k b).length : Int)
            ≤ target + ((para (n - 1)).length : Int)) := by
  intro fuel
  induction fuel with
  | zero =>
    intro k b hfuel
    have hge : ¬ (b.length : Int) < target := by omega
    refine ⟨k, ?_, le_refl _, by omega, fun h => absurd h hge⟩
    rw [textLoop_unfold, if_neg hge, textLoopFuel, if_neg hge]
  | succ fuel ih =>
    intro k b hfuel
    by_cases h : (b.length : Int) < target
    · have hlen : ((b ++ para k ++ [10]).length : Int)
          = (b.length : Int) + ((para k).length : Int) + 1 := by
        simp only [List.length_append, List.length_singleton]
        push_cast
        ring
      obtain ⟨n, heq, hkn, hcount, hover⟩ := ih (k + 1) (b ++ para k ++ [10]) (by omega)
      refine ⟨n, ?_, by omega, by omega, fun _ => ⟨by omega, ?_⟩⟩
      · rw [textLoop_unfold para target k b, if_pos h, textLoopFuel, if_pos h]
        exact heq
      · rw [textLoop_unfold para target k b, if_pos h]
        by_cases h2 : ((b ++ para k ++ [10]).length : Int) < target
        · exact (hover h2).2
        · have hn : n = k + 1 := by omega
          subst hn
          rw [textLoop_unfold, if_neg h2, hlen]
          simp only [Nat.add_sub_cancel]
          omega
    · refine ⟨k, ?_, le_refl _, by omega, fun h2 => absurd h2 h⟩
      rw [textLoop_unfold, if_neg h, textLoopFuel, if_neg h]

/-- The build step of a call on the freshly constructed text generator stores
the content the text loop computes, when `size + TailSize` does not wrap. -/
theorem fill_fresh_text (src : Src) (size : Int) (hsize : 0 < size)
    (hr : size + TailSize ≤ MaxInt) :
    fill src { size := size, buf := none, typ := "text", offset := 0 } =
      some { size := size, buf := some (textLoop src.para (size + TailSize) 0 []),
             typ := "text", offset := 0 } := by
  have hT : TailSize = 1024 := rfl
  have hw : wrapInt (size + TailSize) = size + TailSize := wrapInt_eq _ (by omega) hr
  have hne : textLoop src.para (size + TailSize) 0 [] ≠ [] :=
    textLoop_ne_nil _ _ _ _ (by omega)
  simp [fill, Bytes, hne, hw]

/-- The build step of a call on a freshly constructed generator whose type is
not `"text"` stores `size + TailSize` bytes of the random stream, when
`size + TailSize` does not wrap. -/
theorem fill_fresh_random (src : Src) (size : Int) (typ : String) (hsize : 0 < size)
    (hr : size + TailSize ≤ MaxInt) (ht : typ ≠ "text") :
    fill src { size := size, buf := none, typ := typ, offset := 0 } =
      some { size := size,
             buf := some (randRead src.rand (List.replicate (size + TailSize).toNat 0)),
             typ := typ, offset := 0 } := by
  have hT : TailSize = 1024 := rfl
  have hw : wrapInt (size + TailSize) = size + TailSize := wrapInt_eq _ (by omega) hr
  have hmk : make (size + TailSize) = some (List.replicate (size + TailSize).toNat 0) := by
    unfold make
    rw [if_neg (by omega)]
  simp [fill, ht, hmk, hw]

/-! ## One call of `nextSlice` from a state satisfying the invariant -/

/-- When `size + TailSize` does not wrap, the build step succeeds from a state
satisfying the invariant: it leaves a non-nil buffer in place (the old one if
there was one), changes nothing else, and the invariant still holds. -/
theorem fill_spec (src : Src) (g : Generator) (h : Inv g) (hr : g.size + TailSize ≤ MaxInt) :
    ∃ b : List Byte, fill src g = some { g with buf := some b } ∧
      Inv { g with buf := some b } ∧ (g.buf = none ∨ g.buf = some b) := by
  obtain ⟨size, buf, typ, offset⟩ := g
  obtain ⟨hsize, hmax, hbuf⟩ := h
  have hT : TailSize = 1024 := rfl
  cases buf with
  | some b =>
    exact ⟨b, by simp [fill], ⟨hsize, hmax, hbuf⟩, Or.inr rfl⟩
  | none =>
    simp only at hsize hmax hbuf hr
    subst hbuf
    by_cases ht : typ = "text"
    · subst ht
      refine ⟨textLoop src.para (size + TailSize) 0 [], fill_fresh_text src size hsize hr, ?_,
        Or.inl rfl⟩
      have hlen := textLoop_length_ge src.para (size + TailSize) 0 []
      exact ⟨hsize, hmax, hr, le_refl _, by simp only; omega, hlen, fun hn => absurd rfl hn⟩
    · refine ⟨randRead src.rand (List.replicate (size + TailSize).toNat 0),
        fill_fresh_random src size typ hsize hr ht, ?_, Or.inl rfl⟩
      refine ⟨hsize, hmax, ?_⟩
      simp only [randRead_length, List.length_replicate]
      exact ⟨hr, le_refl _, by omega, by omega, fun _ => by omega⟩

/-- The shift of the offset keeps the invariant, the size and the type. -/
theorem advance_inv (g : Generator) (b : List Byte) (hb : g.buf = some b) (h : Inv g) :
    Inv (advance g) ∧ (advance g).size = g.size ∧ (advance g).typ = g.typ := by
  obtain ⟨size, buf, typ, offset⟩ := g
  simp only at hb
  subst hb
  obtain ⟨hsize, hmax, hr, h0, h1, h2, h3⟩ := h
  simp only at hsize hmax hr h0 h1 h2 h3
  unfold advance
  simp only [len]
  split
  · exact ⟨⟨hsize, hmax, rfl⟩, rfl, rfl⟩
  · rename_i hgt
    refine ⟨⟨hsize, hmax, ?_⟩, rfl, rfl⟩
    simp only
    exact ⟨hr, by omega, by omega, h2, h3⟩

/-- When `size + TailSize` does not wrap, a call of `nextSlice` from a state
satisfying the invariant does not panic: with `b` the buffer in use (the old
one, or the one just built), it returns the `size` bytes of `b` from the old
offset on and leaves the state `advance` computes. -/
theorem nextSlice_spec (src : Src) (g : Generator) (h : Inv g)
    (hr : g.size + TailSize ≤ MaxInt) :
    ∃ b : List Byte, fill src g = some { g with buf := some b } ∧
      Inv { g with buf := some b } ∧ (g.buf = none ∨ g.buf = some b) ∧
      nextSlice src g =
        some ((b.drop g.offset.toNat).take g.size.toNat, advance { g with buf := some b }) := by
  obtain ⟨b, hfill, hinv, hold⟩ := fill_spec src g h hr
  refine ⟨b, hfill, hinv, hold, ?_⟩
  obtain ⟨hsize, _, _, h0, h1, _, _⟩ := hinv
  simp only at hsize h0 h1
  have hs : sliceExpr (some b) g.offset (g.offset + g.size) =
      some ((b.drop g.offset.toNat).take g.size.toNat) := by
    unfold sliceExpr
    rw [if_pos ⟨h0, by omega, by simpa [len] using h1⟩]
    simp
  simp only [nextSlice, hfill, hs]

/-- When `size + TailSize` does not wrap, the slice a call returns has exactly
`size` bytes, and the successor state satisfies the invariant with the same
size and type. -/
theorem nextSlice_ok (src : Src) (g : Generator) (h : Inv g)
    (hr : g.size + TailSize ≤ MaxInt) :
    ∃ (result : List Byte) (g1 : Generator), nextSlice src g = some (result, g1) ∧
      (result.length : Int) = g.size ∧ Inv g1 ∧ g1.size = g.size ∧ g1.typ = g.typ := by
  obtain ⟨b, _, hinv, _, hnext⟩ := nextSlice_spec src g h hr
  have hadv := advance_inv { g with buf := some b } b rfl hinv
  refine ⟨_, _, hnext, ?_, hadv.1, hadv.2.1, hadv.2.2⟩
  obtain ⟨hsize, _, _, h0, h1, _, _⟩ := hinv
  simp only at hsize h0 h1
  simp only [List.length_take, List.length_drop]
  omega

/-- When `size + TailSize` wraps, the build step of the text branch on a
nil buffer runs its loop zero times and leaves the buffer nil. -/
theorem fill_overflow_text (src : Src) (size offset : Int) (hmax : size ≤ MaxInt)
    (hr : MaxInt < size + TailSize) :
    fill src { size := size, buf := none, typ := "text", offset := offset } =
      some { size := size, buf := none, typ := "text", offset := offset } := by
  have hT : TailSize = 1024 := rfl
  have hM : MaxInt = 9223372036854775807 := rfl
  have hneg : wrapInt (size + TailSize) < 0 := wrapInt_neg _ hr (by omega)
  have hloop : textLoop src.para (wrapInt (size + TailSize)) 0 [] = [] :=
    textLoop_of_le _ _ _ _ (by simp only [List.length_nil]; omega)
  simp [fill, hloop, Bytes]

/-- When `size + TailSize` wraps, the build step of the random branch on a
nil buffer panics in `make`. -/
theorem fill_overflow_random (src : Src) (size offset : Int) (typ : String)
    (hmax : size ≤ MaxInt) (hr : MaxInt < size + TailSize) (ht : typ ≠ "text") :
    fill src { size := size, buf := none, typ := typ, offset := offset } = none := by
  have hT : TailSize = 1024 := rfl
  have hM : MaxInt = 9223372036854775807 := rfl
  have hneg : wrapInt (size + TailSize) < 0 := wrapInt_neg _ hr (by omega)
  have hmk : make (wrapInt (size + TailSize)) = none := by
    unfold make
    rw [if_pos hneg]
  simp [fill, ht, hmk]

/-- When `size + TailSize` wraps, a call from a state satisfying the invariant
panics: the buffer of such a state is nil, and the build step either panics
or leaves it nil, so that the slice expression is out of range. -/
theorem nextSlice_overflow (src : Src) (g : Generator) (h : Inv g)
    (hr : MaxInt < g.size + TailSize) : nextSlice src g = none := by
  obtain ⟨size, buf, typ, offset⟩ := g
  obtain ⟨hsize, hmax, hbuf⟩ := h
  simp only at hsize hmax hr
  cases buf with
  | some b =>
    simp only at hbuf
    omega
  | none =>
    by_cases ht : typ = "text"
    · subst ht
      have hslice : sliceExpr none offset (offset + size) = none := by
        unfold sliceExpr
        rw [if_neg]
        rintro ⟨h0, _, h2⟩
        simp only [len] at h2
        omega
      simp only [nextSlice, fill_overflow_text src size offset hmax hr, hslice]
    · simp only [nextSlice, fill_overflow_random src size offset typ hmax hr ht]

/-- Whenever a call from a state satisfying the invariant returns,
`size + TailSize` does not wrap, the slice has exactly `size` bytes, and the
successor state satisfies the invariant with the same size and type. -/
theorem nextSlice_inv (src : Src) (g g1 : Generator) (result : List Byte) (h : Inv g)
    (hnext : nextSlice src g = some (result, g1)) :
    g.size + TailSize ≤ MaxInt ∧ (result.length : Int) = g.size ∧ Inv g1 ∧
      g1.size = g.size ∧ g1.typ = g.typ := by
  by_cases hr : g.size + TailSize ≤ MaxInt
  · obtain ⟨r, g2, hnext2, hlen, hinv, hs, ht⟩ := nextSlice_ok src g h hr
    rw [hnext2] at hnext
    injection hnext with hnext
    injection hnext with hr1 hg
    subst hr1 hg
    exact ⟨hr, hlen, hinv, hs, ht⟩
  · rw [nextSlice_overflow src g h (by omega)] at hnext
    cases hnext

/-! ## Construction and reachable states -/

/-- What `NewGenerator` returns for a positive size when the logger is within
reach or not needed. -/
theorem NewGenerator_pos (vu : VU) (size : Int) (typ : String) (hsize : 0 < size)
    (hvu : vu.InitEnv ≠ none ∨ findType typ = true) :
    ∃ log : List LogRecord,
      NewGenerator vu size typ =
        Except.ok ({ size := size, buf := none, typ := typ, offset := 0 }, log) := by
  unfold NewGenerator
  rw [if_neg (by omega)]
  cases hf : findType typ with
  | true => exact ⟨_, rfl⟩
  | false =>
    rcases hvu with hvu | hvu
    · cases he : vu.InitEnv with
      | none => exact absurd he hvu
      | some e => exact ⟨_, rfl⟩
    · rw [hf] at hvu
      cases hvu

/-- A successful construction had a positive size and returns the initial
state, with no log record or with the one record about the unknown type. -/
theorem NewGenerator_ok_inv (vu : VU) (size : Int) (typ : String) (g : Generator)
    (log : List LogRecord) (h : NewGenerator vu size typ = Except.ok (g, log)) :
    0 < size ∧ g = { size := size, buf := none, typ := typ, offset := 0 } ∧
      ((findType typ = true ∧ log = []) ∨
        (findType typ = false ∧ vu.InitEnv ≠ none ∧
          log = [["Unknown payload type '%s', random will be used.", typ]])) := by
  unfold NewGenerator at h
  by_cases hs : size ≤ 0
  · rw [if_pos hs] at h
    cases h
  · rw [if_neg hs] at h
    cases hf : findType typ with
    | true =>
      rw [hf] at h
      injection h with h
      injection h with hg hl
      exact ⟨by omega, hg.symm, Or.inl ⟨rfl, hl.symm⟩⟩
    | false =>
      rw [hf] at h
      cases he : vu.InitEnv with
      | none =>
        rw [he] at h
        cases h
      | some e =>
        rw [he] at h
        injection h with h
        injection h with hg hl
        exact ⟨by omega, hg.symm, Or.inr ⟨rfl, fun hn => Option.noConfusion hn, hl.symm⟩⟩

/-- Every reachable state satisfies the invariant and carries the size and
the type given to the constructor. -/
theorem reachable_inv (size : Int) (typ : String) (g : Generator)
    (h : Reachable size typ g) : Inv g ∧ g.size = size ∧ g.typ = typ := by
  induction h with
  | init vu g log hmax hnew =>
    obtain ⟨hsize, hg, _⟩ := NewGenerator_ok_inv vu size typ g log hnew
    subst hg
    exact ⟨⟨hsize, hmax, rfl⟩, rfl, rfl⟩
  | step src g g1 result _ hstep ih =>
    obtain ⟨hinv, hs, ht⟩ := ih
    obtain ⟨_, _, hinv1, hs1, ht1⟩ := nextSlice_inv src g g1 result hinv hstep
    exact ⟨hinv1, by rw [hs1, hs], by rw [ht1, ht]⟩

/-- A run that returns from a reachable state ends in a reachable state. -/
theorem reachable_of_stateAfter (size : Int) (typ : String) (srcs : Nat → Src) (g : Generator)
    (h : Reachable size typ g) (n : Nat) :
    ∀ g1 : Generator, stateAfter srcs n g = some g1 → Reachable size typ g1 := by
  induction n with
  | zero =>
    intro g1 hrun
    simp only [stateAfter] at hrun
    injection hrun with hrun
    rw [← hrun]
    exact h
  | succ n ih =>
    intro g1 hrun
    simp only [stateAfter] at hrun
    cases hprev : stateAfter srcs n g with
    | none =>
      rw [hprev] at hrun
      cases hrun
    | some g0 =>
      rw [hprev] at hrun
      simp only at hrun
      cases hnext : nextSlice (srcs (n + 1)) g0 with
      | none =>
        rw [hnext] at hrun
        cases hrun
      | some p =>
        rw [hnext] at hrun
        simp only [Option.map_some'] at hrun
        injection hrun with hrun
        obtain ⟨r, g2⟩ := p
        simp only at hrun
        subst hrun
        exact Reachable.step (srcs (n + 1)) g0 g2 r (ih g0 hprev) hnext

/-! ## Closed forms for one call and for a run on one buffer -/

/-- When another full slice fits after the shift, `advance` only moves the offset. -/
theorem advance_keep (g : Generator) (h : g.offset + 1 + g.size ≤ len g.buf) :
    advance g = { g with offset := g.offset + 1 } := by
  unfold advance
  simp only
  rw [if_neg (by omega)]

/-- When no full slice fits after the shift, `advance` erases the buffer. -/
theorem advance_clear (g : Generator) (h : len g.buf < g.offset + 1 + g.size) :
    advance g = { g with buf := none, offset := 0 } := by
  unfold advance
  simp only
  rw [if_pos (by omega)]

/-- A call on a state whose buffer `b` is in place and long enough returns the
`size` bytes of `b` at the offset and leaves the state `advance` computes. -/
theorem nextSlice_filled (src : Src) (g : Generator) (b : List Byte) (hb : g.buf = some b)
    (h0 : 0 ≤ g.offset) (hs : 0 ≤ g.size) (h1 : g.offset + g.size ≤ (b.length : Int)) :
    nextSlice src g = some ((b.drop g.offset.toNat).take g.size.toNat, advance g) := by
  have hfill : fill src g = some g := by simp [fill, hb]
  have hslice : sliceExpr g.buf g.offset (g.offset + g.size) =
      some ((b.drop g.offset.toNat).take g.size.toNat) := by
    unfold sliceExpr
    rw [hb, if_pos ⟨h0, by omega, by simpa [len] using h1⟩]
    simp
  simp only [nextSlice, hfill, hslice]

/-- The first call on a freshly constructed generator whose type is not
`"text"`, when `size + TailSize` does not wrap: the buffer is
`size + TailSize` random bytes and the offset is 1. -/
theorem nextSlice_fresh_random (src : Src) (size : Int) (typ : String) (hsize : 0 < size)
    (hr : size + TailSize ≤ MaxInt) (ht : typ ≠ "text") :
    nextSlice src { size := size, buf := none, typ := typ, offset := 0 } =
      some ((randRead src.rand (List.replicate (size + TailSize).toNat 0)).take size.toNat,
        { size := size, buf := some (randRead src.rand (List.replicate (size + TailSize).toNat 0)),
          typ := typ, offset := 1 }) := by
  have hT : TailSize = 1024 := rfl
  have hlen : ((randRead src.rand (List.replicate (size + TailSize).toNat 0)).length : Int)
      = size + TailSize := by
    rw [randRead_length, List.length_replicate]
    omega
  have hfill := fill_fresh_random src size typ hsize hr ht
  generalize randRead src.rand (List.replicate (size + TailSize).toNat 0) = B at hlen hfill ⊢
  have hslice : sliceExpr (some B) 0 (0 + size) = some (B.take size.toNat) := by
    unfold sliceExpr
    rw [if_pos ⟨le_refl _, by omega, by simp only [len]; omega⟩]
    simp
  have hadv : advance { size := size, buf := some B, typ := typ, offset := 0 } =
      { size := size, buf := some B, typ := typ, offset := 1 } := by
    rw [advance_keep _ (by simp only [len]; omega)]
    simp
  simp only [nextSlice, hfill, hslice, hadv]

/-- A state whose buffer is in place is left alone by the build step. -/
theorem fill_of_some (src : Src) (g : Generator) (hb : g.buf ≠ none) : fill src g = some g := by
  unfold fill
  cases h : g.buf with
  | none => exact absurd h hb
  | some b => rfl

/-- A call only sees the state the build step leaves. -/
theorem nextSlice_of_fill (src : Src) (g g1 : Generator) (hfill : fill src g = some g1)
    (hb : g1.buf ≠ none) : nextSlice src g = nextSlice src g1 := by
  unfold nextSlice
  rw [hfill, fill_of_some src g1 hb]

/-- From the first call on, a run only sees the state the first build step leaves. -/
theorem stateAfter_of_fill (srcs : Nat → Src) (g g1 : Generator)
    (hfill : fill (srcs 1) g = some g1) (hb : g1.buf ≠ none) (j : Nat) :
    stateAfter srcs (j + 1) g = stateAfter srcs (j + 1) g1 := by
  induction j with
  | zero => simp only [stateAfter, nextSlice_of_fill (srcs (0 + 1)) g g1 hfill hb]
  | succ j ih =>
    rw [stateAfter, ih]
    conv => rhs; rw [stateAfter]

/-- As long as full slices fit, `j` calls on a buffer in place only move the
offset by `j`. -/
theorem stateAfter_on_buffer (srcs : Nat → Src) (size : Int) (b : List Byte) (typ : String)
    (o : Int) (h0 : 0 ≤ o) (hs : 0 ≤ size) (j : Nat) (hj : o + j + size ≤ (b.length : Int)) :
    stateAfter srcs j { size := size, buf := some b, typ := typ, offset := o } =
      some { size := size, buf := some b, typ := typ, offset := o + j } := by
  induction j with
  | zero => simp [stateAfter]
  | succ j ih =>
    push_cast at hj
    rw [stateAfter, ih (by omega)]
    simp only
    rw [nextSlice_filled (srcs (j + 1)) { size := size, buf := some b, typ := typ, offset := o + j }
      b rfl (by simp only; omega) hs (by simp only; omega)]
    rw [advance_keep _ (by simp only [len]; omega)]
    simp only [Option.map_some']
    congr 2
    push_cast
    omega

/-- The call made at the last offset where a full slice fits erases the buffer. -/
theorem stateAfter_clears (srcs : Nat → Src) (size : Int) (b : List Byte) (typ : String)
    (o : Int) (h0 : 0 ≤ o) (hs : 0 ≤ size) (j : Nat) (hj : o + j + size = (b.length : Int)) :
    stateAfter srcs (j + 1) { size := size, buf := some b, typ := typ, offset := o } =
      some { size := size, buf := none, typ := typ, offset := 0 } := by
  rw [stateAfter, stateAfter_on_buffer srcs size b typ o h0 hs j (by omega)]
  simp only
  rw [nextSlice_filled (srcs (j + 1)) { size := size, buf := some b, typ := typ, offset := o + j }
    b rfl (by simp only; omega) hs (by simp only; omega)]
  rw [advance_clear _ (by simp only [len]; omega)]
  simp only [Option.map_some']

/-! ## The text build on the example source -/

theorem textBuf600_length : textBuf600.length = 1202 := by
  simp only [textBuf600, List.length_append, List.length_replicate, List.length_nil,
    List.length_singleton]

/-- For size 1 the text loop on `src600` stops after two paragraphs. -/
theorem textLoop_src600 : textLoop src600.para (1 + TailSize) 0 [] = textBuf600 := by
  have hT : TailSize = 1024 := rfl
  rw [textLoop_unfold, if_pos (by simp only [List.length_nil]; omega)]
  rw [textLoop_unfold, if_pos (by
    simp only [src600, List.length_append, List.length_replicate, List.length_nil,
      List.length_singleton]
    omega)]
  rw [textLoop_unfold, if_neg (by
    simp only [src600, List.length_append, List.length_replicate, List.length_nil,
      List.length_singleton]
    omega)]
  rfl

/-- The build step of the first call on `NewGenerator(1, "text")` with `src600`. -/
theorem fill_src600 :
    fill src600 { size := 1, buf := none, typ := "text", offset := 0 } =
      some { size := 1, buf := some textBuf600, typ := "text", offset := 0 } := by
  rw [fill_fresh_text src600 1 (by decide) (by decide), textLoop_src600]

/-- The loop over `payloadTypes` finds exactly the three recognised strings. -/
theorem findType_iff (typ : String) :
    findType typ = true ↔ typ = "text" ∨ typ = "random" ∨ typ = "" := by
  unfold findType payloadTypes
  simp only [List.foldl_cons, List.foldl_nil]
  by_cases h1 : "text" = typ
  · subst h1; simp
  · by_cases h2 : "random" = typ
    · subst h2; simp
    · by_cases h3 : "" = typ
      · subst h3; simp
      · simp only [if_neg h1, if_neg h2, if_neg h3]
        constructor
        · intro h; cases h
        · rintro (h | h | h)
          · exact absurd h.symm h1
          · exact absurd h.symm h2
          · exact absurd h.symm h3

/-- A type is found by the constructor's loop exactly when it is in the table. -/
theorem findType_iff_mem (typ : String) : findType typ = true ↔ typ ∈ payloadTypes := by
  rw [findType_iff]
  simp [payloadTypes]

/-! ## A cycle on one random buffer -/

/-- After `k` calls, `1 <= k <= 1024`, on a freshly constructed generator whose
type is not `"text"` and whose `size + TailSize` does not wrap, the random
buffer built by the first call is in place and the offset is `k`. -/
theorem stateAfter_random_cycle (srcs : Nat → Src) (size : Int) (typ : String)
    (hsize : 0 < size) (hr : size + TailSize ≤ MaxInt) (ht : typ ≠ "text") (k : Nat)
    (h1 : 1 ≤ k) (h2 : k ≤ 1024) :
    stateAfter srcs k { size := size, buf := none, typ := typ, offset := 0 } =
      some { size := size,
             buf := some (randRead (srcs 1).rand (List.replicate (size + TailSize).toNat 0)),
             typ := typ, offset := k } := by
  have hT : TailSize = 1024 := rfl
  have hfill := fill_fresh_random (srcs 1) size typ hsize hr ht
  have hlen : ((randRead (srcs 1).rand (List.replicate (size + TailSize).toNat 0)).length : Int)
      = size + 1024 := by
    rw [randRead_length, List.length_replicate]
    omega
  generalize randRead (srcs 1).rand (List.replicate (size + TailSize).toNat 0) = B
    at hfill hlen ⊢
  obtain ⟨j, rfl⟩ : ∃ j, k = j + 1 := ⟨k - 1, by omega⟩
  rw [stateAfter_of_fill srcs _ _ hfill (fun h => Option.noConfusion h) j]
  rw [stateAfter_on_buffer srcs size B typ 0 (le_refl _) (by omega) (j + 1)
    (by push_cast; omega)]
  simp

/-- The 1025-th call of such a cycle erases the buffer. -/
theorem stateAfter_random_cycle_end (srcs : Nat → Src) (size : Int) (typ : String)
    (hsize : 0 < size) (hr : size + TailSize ≤ MaxInt) (ht : typ ≠ "text") :
    stateAfter srcs 1025 { size := size, buf := none, typ := typ, offset := 0 } =
      some { size := size, buf := none, typ := typ, offset := 0 } := by
  have hT : TailSize = 1024 := rfl
  have hfill := fill_fresh_random (srcs 1) size typ hsize hr ht
  have hlen : ((randRead (srcs 1).rand (List.replicate (size + TailSize).toNat 0)).length : Int)
      = size + 1024 := by
    rw [randRead_length, List.length_replicate]
    omega
  generalize randRead (srcs 1).rand (List.replicate (size + TailSize).toNat 0) = B
    at hfill hlen
  rw [stateAfter_of_fill srcs _ _ hfill (fun h => Option.noConfusion h) 1024]
  exact stateAfter_clears srcs size B typ 0 (le_refl _) (by omega) 1024 (by omega)

/-- C2 as stated fails outside the init context: with `vu.InitEnv()` nil,
`NewGenerator(16, "bogus")` panics in the logging call although the size is
positive. -/
theorem NewGenerator_panics_counterexample :
    ¬ ((16 : Int) ≤ 0) ∧
    NewGenerator vuNoInit 16 "bogus" =
      Except.error "invalid memory address or nil pointer dereference" :=
  ⟨by decide, rfl⟩

/-- C2, amended: when the host's init environment is available, or the type
is one of the recognised ones, `NewGenerator(size, typ)` panics if and only if
`size <= 0`; for `size > 0` it returns the generator with a nil buffer, offset
0, and the given size and type. -/
theorem NewGenerator_panics_iff (vu : VU) (size : Int) (typ : String)
    (hvu : vu.InitEnv ≠ none ∨ typ ∈ payloadTypes) :
    ((∃ msg : String, NewGenerator vu size typ = Except.error msg) ↔ size ≤ 0) ∧
    ((∃ (g : Generator) (log : List LogRecord),
        NewGenerator vu size typ = Except.ok (g, log) ∧
        g.buf = none ∧ g.offset = 0 ∧ g.size = size ∧ g.typ = typ) ↔ 0 < size) := by
  have hvu2 : vu.InitEnv ≠ none ∨ findType typ = true :=
    hvu.imp id (findType_iff_mem typ).mpr
  constructor
  · constructor
    · rintro ⟨msg, h⟩
      by_contra hs
      obtain ⟨log, hok⟩ := NewGenerator_pos vu size typ (by omega) hvu2
      rw [hok] at h
      cases h
    · intro hs
      exact ⟨"size should be positive", by unfold NewGenerator; rw [if_pos hs]⟩
  · constructor
    · rintro ⟨g, log, h, _⟩
      exact (NewGenerator_ok_inv vu size typ g log h).1
    · intro hs
      obtain ⟨log, hok⟩ := NewGenerator_pos vu size typ hs hvu2
      exact ⟨_, log, hok, rfl, rfl, rfl, rfl⟩

/-- Instance of C2 (amended): the unrecognised type `"bogus"` inside the init
context, at size 16. -/
theorem NewGenerator_panics_iff_witness :
    ((∃ msg : String, NewGenerator vuInit 16 "bogus" = Except.error msg) ↔ (16 : Int) ≤ 0) ∧
    ((∃ (g : Generator) (log : List LogRecord),
        NewGenerator vuInit 16 "bogus" = Except.ok (g, log) ∧
        g.buf = none ∧ g.offset = 0 ∧ g.size = 16 ∧ g.typ = "bogus") ↔ (0 : Int) < 16) :=
  NewGenerator_panics_iff vuInit 16 "bogus" (Or.inl (fun h => Option.noConfusion h))

/-- C3: in every state reachable from `NewGenerator(size, typ)` by `nextSlice`
calls, a non-nil buffer satisfies `offset + size <= len(buf)`. -/
theorem reachable_offset_bound (size : Int) (typ : String) (g : Generator)
    (hreach : Reachable size typ g) (hbuf : g.buf ≠ none) :
    g.offset + size ≤ len g.buf := by
  obtain ⟨⟨_, _, hinv⟩, hs, _⟩ := reachable_inv size typ g hreach
  cases hb : g.buf with
  | none => exact absurd hb hbuf
  | some b =>
    rw [hb] at hinv
    simp only [len]
    omega

/-- Instance of C3: the state after the first call on `NewGenerator(16, "random")`,
whose buffer is in place. -/
theorem reachable_offset_bound_witness :
    (1 : Int) + 16 ≤
      len (some (randRead (fun _ => 7) (List.replicate ((16 : Int) + TailSize).toNat 0))) :=
  reachable_offset_bound 16 "random"
    { size := 16,
      buf := some (randRead (fun _ => 7) (List.replicate ((16 : Int) + TailSize).toNat 0)),
      typ := "random", offset := 1 }
    (Reachable.step { rand := fun _ => 7, para := fun _ => [] }
      { size := 16, buf := none, typ := "random", offset := 0 } _ _
      (Reachable.init vuInit _ [] (by decide) rfl)
      (nextSlice_fresh_random _ 16 "random" (by decide) (by decide) (by decide)))
    (fun h => Option.noConfusion h)

/-- C10 as stated fails for the text type: after the first call on
`NewGenerator(1, "text")` with 600-byte paragraphs the buffer is in place and
has 1202 bytes, not `1 + 1024`. -/
theorem buffer_length_exact_counterexample :
    ∃ g : Generator, Reachable 1 "text" g ∧ g.buf ≠ none ∧ len g.buf ≠ 1 + TailSize := by
  refine ⟨{ size := 1, buf := some textBuf600, typ := "text", offset := 1 }, ?_, ?_, ?_⟩
  · have hnext : nextSlice src600 { size := 1, buf := none, typ := "text", offset := 0 } =
        some ((textBuf600.drop 0).take 1,
          { size := 1, buf := some textBuf600, typ := "text", offset := 1 }) := by
      rw [nextSlice_of_fill _ _ _ fill_src600 (fun h => Option.noConfusion h)]
      rw [nextSlice_filled src600 _ textBuf600 rfl (le_refl _) (by decide)
        (by rw [textBuf600_length]; decide)]
      rw [advance_keep _ (by simp only [len, textBuf600_length]; decide)]
      rfl
    exact Reachable.step src600 _ _ _ (Reachable.init vuInit _ [] (by decide) rfl) hnext
  · exact fun h => Option.noConfusion h
  · simp only [len, textBuf600_length, TailSize]
    decide

/-- C10, amended: in every reachable state a non-nil buffer has at least
`size + TailSize` bytes, and exactly `size + TailSize = size + 1024` bytes
when the type is not `"text"`. -/
theorem buffer_length (size : Int) (typ : String) (g : Generator)
    (hreach : Reachable size typ g) (hbuf : g.buf ≠ none) :
    size + TailSize ≤ len g.buf ∧ (typ ≠ "text" → len g.buf = size + 1024) := by
  obtain ⟨⟨_, _, hinv⟩, hs, ht⟩ := reachable_inv size typ g hreach
  subst hs ht
  have hT : TailSize = 1024 := rfl
  cases hb : g.buf with
  | none => exact absurd hb hbuf
  | some b =>
    rw [hb] at hinv
    simp only [len]
    exact ⟨hinv.2.2.2.1, fun hne => by rw [hinv.2.2.2.2 hne, hT]⟩

/-- Instance of C10 (amended): the state after the first call on
`NewGenerator(16, "random")`. -/
theorem buffer_length_witness :
    (16 : Int) + TailSize ≤
      len (some (randRead (fun _ => 7) (List.replicate ((16 : Int) + TailSize).toNat 0))) ∧
    ("random" ≠ "text" →
      len (some (randRead (fun _ => 7) (List.replicate ((16 : Int) + TailSize).toNat 0)))
        = 16 + 1024) :=
  buffer_length 16 "random"
    { size := 16,
      buf := some (randRead (fun _ => 7) (List.replicate ((16 : Int) + TailSize).toNat 0)),
      typ := "random", offset := 1 }
    (Reachable.step { rand := fun _ => 7, para := fun _ => [] }
      { size := 16, buf := none, typ := "random", offset := 0 } _ _
      (Reachable.init vuInit _ [] (by decide) rfl)
      (nextSlice_fresh_random _ 16 "random" (by decide) (by decide) (by decide)))
    (fun h => Option.noConfusion h)

/-- C8: the flag `calcHash` influences neither the payload nor the state.
From any state and with the same source, `GenPayload(true)` and
`GenPayload(false)` panic together or return the same payload bytes and the
same successor state, namely the slice and the successor state of one
`nextSlice` call. -/
theorem GenPayload_flag_irrelevant (Sum256 : List Byte → List Byte) (src : Src)
    (calcHash : Bool) (g : Generator) :
    (GenPayload Sum256 src calcHash g).map (fun p => (p.1.Payload, p.2)) = nextSlice src g := by
  unfold GenPayload
  cases nextSlice src g with
  | none => rfl
  | some p => rfl

/-- C11 as stated fails at the largest `int`: for size `MaxInt` the target
`size + TailSize` wraps to a negative value, the text loop appends nothing,
and the buffer the text build stores is nil, of length 0 and not of length at
least `size + TailSize`. -/
theorem text_buffer_length_counterexample :
    (0 : Int) < MaxInt ∧
    ∃ g1 : Generator,
      fill src600 { size := MaxInt, buf := none, typ := "text", offset := 0 } = some g1 ∧
      len g1.buf = 0 ∧ ¬ (MaxInt + TailSize ≤ len g1.buf) :=
  ⟨by decide, { size := MaxInt, buf := none, typ := "text", offset := 0 },
    fill_overflow_text src600 MaxInt 0 (le_refl _) (by decide), rfl, by decide⟩

/-- C11, amended (text-strategy buffer size): for every size > 0 with
`size + TailSize <= MaxInt` and every paragraph source, the first call on the
text generator builds the buffer `B` the text loop computes; the loop appends
`n >= 1` paragraphs, each followed by a newline, and
`size + TailSize <= len(B) <= size + TailSize + len(p)` where `p` is the
paragraph appended last. -/
theorem text_buffer_length (size : Int) (src : Src) (hsize : 0 < size)
    (hr : size + TailSize ≤ MaxInt) :
    ∃ (B : List Byte) (n : Nat),
      fill src { size := size, buf := none, typ := "text", offset := 0 } =
        some { size := size, buf := some B, typ := "text", offset := 0 } ∧
      textLoopFuel src.para (wrapInt (size + TailSize)) (size + TailSize).toNat 0 []
        = some (B, n) ∧
      1 ≤ n ∧
      size + TailSize ≤ (B.length : Int) ∧
      (B.length : Int) ≤ size + TailSize + ((src.para (n - 1)).length : Int) := by
  have hT : TailSize = 1024 := rfl
  have hw : wrapInt (size + TailSize) = size + TailSize := wrapInt_eq _ (by omega) hr
  rw [hw]
  obtain ⟨n, heq, _, _, hover⟩ :=
    textLoopFuel_spec src.para (size + TailSize) (size + TailSize).toNat 0 []
      (by simp only [List.length_nil]; omega)
  obtain ⟨hn, hle⟩ := hover (by simp only [List.length_nil]; omega)
  exact ⟨_, n, fill_fresh_text src size hsize hr, heq, hn,
    textLoop_length_ge _ _ _ _, hle⟩

/-- Instance of C11 (amended): size 1 with 600-byte paragraphs. -/
theorem text_buffer_length_witness :
    ∃ (B : List Byte) (n : Nat),
      fill src600 { size := 1, buf := none, typ := "text", offset := 0 } =
        some { size := 1, buf := some B, typ := "text", offset := 0 } ∧
      textLoopFuel src600.para (wrapInt (1 + TailSize)) ((1 : Int) + TailSize).toNat 0 []
        = some (B, n) ∧
      1 ≤ n ∧
      1 + TailSize ≤ (B.length : Int) ∧
      (B.length : Int) ≤ 1 + TailSize + ((src600.para (n - 1)).length : Int) :=
  text_buffer_length 1 src600 (by decide) (by decide)

/-- C14 (cursor invariant): in every state reachable from a successful
construction the offset is not negative, and it is 0 whenever the buffer is
nil. -/
theorem cursor_invariant (size : Int) (typ : String) (g : Generator)
    (hreach : Reachable size typ g) :
    0 ≤ g.offset ∧ (g.buf = none → g.offset = 0) := by
  obtain ⟨⟨_, _, hinv⟩, _, _⟩ := reachable_inv size typ g hreach
  cases hb : g.buf with
  | none =>
    rw [hb] at hinv
    simp only at hinv
    exact ⟨by omega, fun _ => hinv⟩
  | some b =>
    rw [hb] at hinv
    exact ⟨hinv.2.1, fun h => Option.noConfusion h⟩

/-- Instances of C14 on `NewGenerator(16, "random")`: the state after one
call, where the offset was shifted to 1 and the buffer is in place, and the
state after 1025 calls, where the last call erased the buffer and reset the
offset. -/
theorem cursor_invariant_witness :
    ((0 : Int) ≤ (1 : Nat) ∧
      (some (randRead srcCount.rand (List.replicate ((16 : Int) + TailSize).toNat 0)) = none →
        ((1 : Nat) : Int) = 0)) ∧
    ((0 : Int) ≤ 0 ∧ ((none : Slice) = none → (0 : Int) = 0)) :=
  ⟨cursor_invariant 16 "random"
      { size := 16,
        buf := some (randRead srcCount.rand (List.replicate ((16 : Int) + TailSize).toNat 0)),
        typ := "random", offset := (1 : Nat) }
      (reachable_of_stateAfter 16 "random" (fun _ => srcCount)
        { size := 16, buf := none, typ := "random", offset := 0 }
        (Reachable.init vuInit _ [] (by decide) rfl) 1 _
        (stateAfter_random_cycle (fun _ => srcCount) 16 "random" (by decide) (by decide)
          (by decide) 1 (by decide) (by decide))),
    cursor_invariant 16 "random" { size := 16, buf := none, typ := "random", offset := 0 }
      (reachable_of_stateAfter 16 "random" (fun _ => srcCount)
        { size := 16, buf := none, typ := "random", offset := 0 }
        (Reachable.init vuInit _ [] (by decide) rfl) 1025 _
        (stateAfter_random_cycle_end (fun _ => srcCount) 16 "random" (by decide) (by decide)
          (by decide)))⟩

/-- C15 as stated fails outside the init context: with `vu.InitEnv()` nil,
size 16 and the unrecognised type `"bogus"`, the constructor panics on its way
to the logger and emits no log record. -/
theorem NewGenerator_logs_counterexample :
    ((0 : Int) < 16 ∧ "bogus" ≠ "text" ∧ "bogus" ≠ "random" ∧ "bogus" ≠ "") ∧
    ¬ ∃ (g : Generator) (log : List LogRecord),
        NewGenerator vuNoInit 16 "bogus" = Except.ok (g, log) ∧ log ≠ [] := by
  refine ⟨by decide, ?_⟩
  rintro ⟨g, log, h, _⟩
  have herr : NewGenerator vuNoInit 16 "bogus" =
      Except.error "invalid memory address or nil pointer dereference" := rfl
  rw [herr] at h
  cases h

/-- C15, amended: when the host's init environment is available,
`NewGenerator` emits a log record if and only if `size > 0` and the type is
none of `"text"`, `"random"` and the empty string; whatever the host, a
panicking construction returns no log at all, and a successful one emits
either nothing or the single record made of the message and the unrecognised
type. -/
theorem NewGenerator_logs_iff (vu : VU) (size : Int) (typ : String)
    (hvu : vu.InitEnv ≠ none) :
    ((∃ (g : Generator) (log : List LogRecord),
        NewGenerator vu size typ = Except.ok (g, log) ∧ log ≠ []) ↔
      (0 < size ∧ typ ≠ "text" ∧ typ ≠ "random" ∧ typ ≠ "")) ∧
    (∀ (g : Generator) (log : List LogRecord), NewGenerator vu size typ = Except.ok (g, log) →
      log = [] ∨ log = [["Unknown payload type '%s', random will be used.", typ]]) := by
  refine ⟨⟨?_, ?_⟩, ?_⟩
  · rintro ⟨g, log, h, hne⟩
    obtain ⟨hs, _, hl⟩ := NewGenerator_ok_inv vu size typ g log h
    refine ⟨hs, ?_⟩
    rcases hl with ⟨_, hl⟩ | ⟨hf, _, _⟩
    · exact absurd hl hne
    · have hnot : ¬ (typ = "text" ∨ typ = "random" ∨ typ = "") := by
        rw [← findType_iff, hf]
        exact fun h => Bool.noConfusion h
      exact ⟨fun h => hnot (Or.inl h), fun h => hnot (Or.inr (Or.inl h)),
        fun h => hnot (Or.inr (Or.inr h))⟩
  · rintro ⟨hs, h1, h2, h3⟩
    obtain ⟨log, hok⟩ := NewGenerator_pos vu size typ hs (Or.inl hvu)
    refine ⟨_, log, hok, ?_⟩
    obtain ⟨_, _, hl⟩ := NewGenerator_ok_inv vu size typ _ log hok
    rcases hl with ⟨hf, _⟩ | ⟨_, _, hl⟩
    · rcases (findType_iff typ).mp hf with h | h | h
      · exact absurd h h1
      · exact absurd h h2
      · exact absurd h h3
    · rw [hl]
      exact fun h => List.noConfusion h
  · intro g log h
    obtain ⟨_, _, hl⟩ := NewGenerator_ok_inv vu size typ g log h
    rcases hl with ⟨_, hl⟩ | ⟨_, _, hl⟩
    · exact Or.inl hl
    · exact Or.inr hl

/-- Instance of C15 (amended): size 16 and type `"bogus"` inside the init
context. -/
theorem NewGenerator_logs_iff_witness :
    ((∃ (g : Generator) (log : List LogRecord),
        NewGenerator vuInit 16 "bogus" = Except.ok (g, log) ∧ log ≠ []) ↔
      ((0 : Int) < 16 ∧ "bogus" ≠ "text" ∧ "bogus" ≠ "random" ∧ "bogus" ≠ "")) ∧
    (∀ (g : Generator) (log : List LogRecord),
      NewGenerator vuInit 16 "bogus" = Except.ok (g, log) →
      log = [] ∨ log = [["Unknown payload type '%s', random will be used.", "bogus"]]) :=
  NewGenerator_logs_iff vuInit 16 "bogus" (fun h => Option.noConfusion h)

/-- C17 (termination of the text build): for every size > 0 and every
paragraph source, empty paragraphs included, the loop of the text branch, run
against the target `size + TailSize` as the code computes it, ends after `n`
executions of its body with `n <= size + TailSize`, and with the content the
build step stores as the buffer; `n >= 1` when `size + TailSize` does not
wrap. -/
theorem textLoop_terminates (size : Int) (src : Src) (hsize : 0 < size) :
    ∃ n : Nat,
      textLoopFuel src.para (wrapInt (size + TailSize)) (size + TailSize).toNat 0 [] =
        some (textLoop src.para (wrapInt (size + TailSize)) 0 [], n) ∧
      fill src { size := size, buf := none, typ := "text", offset := 0 } =
        some { size := size,
               buf := Bytes (textLoop src.para (wrapInt (size + TailSize)) 0 []),
               typ := "text", offset := 0 } ∧
      (n : Int) ≤ size + TailSize ∧
      (size + TailSize ≤ MaxInt → 1 ≤ n) := by
  have hT : TailSize = 1024 := rfl
  have hle : wrapInt (size + TailSize) ≤ size + TailSize := wrapInt_le _ (by omega)
  obtain ⟨n, heq, _, hcount, hover⟩ :=
    textLoopFuel_spec src.para (wrapInt (size + TailSize)) (size + TailSize).toNat 0 []
      (by simp only [List.length_nil]; omega)
  refine ⟨n, heq, by simp [fill], ?_, ?_⟩
  · simp only [List.length_nil] at hcount
    omega
  · intro hr
    have hw : wrapInt (size + TailSize) = size + TailSize := wrapInt_eq _ (by omega) hr
    exact (hover (by simp only [List.length_nil]; omega)).1

/-- Instance of C17: size 1 with a source of empty paragraphs. -/
theorem textLoop_terminates_witness :
    ∃ n : Nat,
      textLoopFuel srcCount.para (wrapInt (1 + TailSize)) ((1 : Int) + TailSize).toNat 0 [] =
        some (textLoop srcCount.para (wrapInt (1 + TailSize)) 0 [], n) ∧
      fill srcCount { size := 1, buf := none, typ := "text", offset := 0 } =
        some { size := 1,
               buf := Bytes (textLoop srcCount.para (wrapInt (1 + TailSize)) 0 []),
               typ := "text", offset := 0 } ∧
      (n : Int) ≤ 1 + TailSize ∧
      ((1 : Int) + TailSize ≤ MaxInt → 1 ≤ n) :=
  textLoop_terminates 1 srcCount (by decide)

end Datagen
